import Mathlib

/-!
Verification of the RTLauncher core download pipeline.

This file gives a shallow embedding, in Lean 4, of the pure/sequential
content of the Rust sources under `src-tauri/src`:

* `source.rs` — the Source Router (`dl_source_launcher_or_meta_get`);
* `client_list.rs` — the manifest loader preference-0 branch and
  version-id resolution (`DlClientListLoader::execute`, `dl_client_list_get`);
* `download/config.rs`, `download/task.rs` — strategy, config and task
  value objects;
* `download/downloader.rs` — the single-stream retry loop
  (`download_small_file`), the ranged chunk split and merge
  (`download_large_file` / `merge_chunks`), and the batch gather
  (`download_batch`);
* `models.rs` — `FileChecker`;
* `tasks/client.rs` — `dl_client_jar_get`, `collect_asset_tasks`;
* `task.rs` — the task-manager state machine.

Rust strings are modelled as `List Char` (`Str`); network and clock
effects are modelled by explicit oracle parameters (an attempt outcome
per HTTP request, an abstract timestamp per state transition); the
filesystem is modelled as an explicit map from path to file contents.
Machine integers stay in `Nat`/`Int`: none of the verified code relies
on wrap-around.
-/

set_option maxRecDepth 8192

namespace RTLauncher

/-- Rust `String`/`&str` values, modelled as lists of characters. -/
abbrev Str := List Char

/-- Rust `str::contains(pat)` (substring containment, leftmost scan). -/
def containsSub (s pat : Str) : Bool :=
  match s with
  | [] => pat.isEmpty
  | _ :: rest => pat.isPrefixOf s || containsSub rest pat

/-- Fuelled worker for `replaceAll`; the fuel is an upper bound on the
length of the text still to scan, so the scan is structural. -/
def replaceAllFuel (pat rep : Str) : Nat → Str → Str
  | 0, s => s
  | _ + 1, [] => []
  | fuel + 1, c :: rest =>
    if pat ≠ [] ∧ pat.isPrefixOf (c :: rest) then
      rep ++ replaceAllFuel pat rep fuel ((c :: rest).drop pat.length)
    else
      c :: replaceAllFuel pat rep fuel rest

/-- Rust `str::replace(pat, rep)`: replace every leftmost,
non-overlapping occurrence of `pat` by `rep`. -/
def replaceAll (s pat rep : Str) : Str :=
  replaceAllFuel pat rep s.length s

/-- The error taxonomy of `error.rs` (`DownloadError`); the payloads of
the library-wrapped variants are reduced to message strings. -/
inductive DlError where
  | network (msg : Str)
  | json (msg : Str)
  | io (msg : Str)
  | versionListParse (msg : Str)
  | downloadInfoNotFound (msg : Str)
  | loaderExecution (msg : Str)
  | timeout
  | aborted
  | unknown (msg : Str)
deriving DecidableEq, Repr

/-! ## Source Router (`source.rs`) -/

/-- Substring marker `"bmclapi"` used by the mirror-host test. -/
def bmclapiTok : Str := ("bmclapi").toList

/-- Substring marker `"mcbbs"` used by the mirror-host test. -/
def mcbbsTok : Str := ("mcbbs").toList

def launchermetaHost : Str := ("launchermeta.mojang.com").toList
def launcherHost : Str := ("launcher.mojang.com").toList
def resourcesHost : Str := ("resources.download.minecraft.net").toList
def librariesHost : Str := ("libraries.minecraft.net").toList

def launchermetaOrigin : Str := ("https://launchermeta.mojang.com").toList
def launcherOrigin : Str := ("https://launcher.mojang.com").toList
def resourcesOrigin : Str := ("https://resources.download.minecraft.net").toList
def librariesOrigin : Str := ("https://libraries.minecraft.net").toList

def bmclapiBase : Str := ("https://bmclapi2.bangbang93.com").toList
def bmclapiAssets : Str := ("https://bmclapi2.bangbang93.com/assets").toList
def bmclapiMaven : Str := ("https://bmclapi2.bangbang93.com/maven").toList

/-- The mirror-URL computation inside `dl_source_launcher_or_meta_get`:
the first hostname-containment test that fires selects a textual
replace-all of the corresponding `https://`-prefixed origin form; if no
test fires the URL is returned unchanged. -/
def mirrorSubstituted (originalUrl : Str) : Str :=
  if containsSub originalUrl launchermetaHost then
    replaceAll originalUrl launchermetaOrigin bmclapiBase
  else if containsSub originalUrl launcherHost then
    replaceAll originalUrl launcherOrigin bmclapiBase
  else if containsSub originalUrl resourcesHost then
    replaceAll originalUrl resourcesOrigin bmclapiAssets
  else if containsSub originalUrl librariesHost then
    replaceAll originalUrl librariesOrigin bmclapiMaven
  else
    originalUrl

/-- `source.rs: dl_source_launcher_or_meta_get`. Starts from the
singleton of the original URL; when the URL is not recognized as a
mirror URL (substring test on `bmclapi` / `mcbbs`), computes the mirror
substitution and pushes it when it differs from the original. -/
def dl_source_launcher_or_meta_get (originalUrl : Str) : List Str :=
  let urls := [originalUrl]
  if ¬ containsSub originalUrl bmclapiTok ∧ ¬ containsSub originalUrl mcbbsTok then
    let mirrorUrl := mirrorSubstituted originalUrl
    if mirrorUrl ≠ originalUrl then urls ++ [mirrorUrl] else urls
  else
    urls

/-- Transcription of claim C6 as stated: "prefix applies" is read as the
URL starting with the recognized authoritative prefix, and the second
element is the input with that leading prefix substituted by the mirror
prefix; otherwise the singleton.  Used only to exhibit the divergence
from the source. -/
def routeClaimC6 (url : Str) : List Str :=
  if containsSub url bmclapiTok ∨ containsSub url mcbbsTok then [url]
  else if launchermetaOrigin.isPrefixOf url then
    [url, bmclapiBase ++ url.drop launchermetaOrigin.length]
  else if launcherOrigin.isPrefixOf url then
    [url, bmclapiBase ++ url.drop launcherOrigin.length]
  else if resourcesOrigin.isPrefixOf url then
    [url, bmclapiAssets ++ url.drop resourcesOrigin.length]
  else if librariesOrigin.isPrefixOf url then
    [url, bmclapiMaven ++ url.drop librariesOrigin.length]
  else
    [url]

/-- C6 (counterexample): the claim reads "prefix applies" as a true
prefix match, but the source tests hostname containment anywhere in the
URL and rewrites by textual replace-all.  On the input
`https://example.com/https://launchermeta.mojang.com` — which starts
with none of the four authoritative prefixes and is not a mirror URL —
the claim demands the singleton of the input, while the source returns
a two-element list whose second entry rewrites the embedded origin
prefix. -/
theorem c6_counterexample :
    routeClaimC6 (("https://example.com/https://launchermeta.mojang.com").toList) =
      [("https://example.com/https://launchermeta.mojang.com").toList]
    ∧ dl_source_launcher_or_meta_get
        (("https://example.com/https://launchermeta.mojang.com").toList) =
      [("https://example.com/https://launchermeta.mojang.com").toList,
        ("https://example.com/https://bmclapi2.bangbang93.com").toList]
    ∧ ([("https://example.com/https://launchermeta.mojang.com").toList] : List Str) ≠
      [("https://example.com/https://launchermeta.mojang.com").toList,
        ("https://example.com/https://bmclapi2.bangbang93.com").toList] :=
  ⟨by decide, by decide, by decide⟩

/-- C6 (amended): for every input URL the router's first element is the
input; if the input contains `bmclapi` or `mcbbs` the output is exactly
the singleton of the input; otherwise the output appends the mirror
substitution — the first hostname-containment match among the four
recognized authoritative endpoints, rewritten by replacing every
occurrence of the `https://`-prefixed origin form with the mirror
prefix — exactly when that substitution changes the URL, and is the
singleton otherwise. -/
theorem c6_source_router (url : Str) :
    (dl_source_launcher_or_meta_get url).head? = some url
    ∧ ((containsSub url bmclapiTok ∨ containsSub url mcbbsTok) →
        dl_source_launcher_or_meta_get url = [url])
    ∧ (¬(containsSub url bmclapiTok ∨ containsSub url mcbbsTok) →
        dl_source_launcher_or_meta_get url =
          if mirrorSubstituted url = url then [url]
          else [url, mirrorSubstituted url]) := by
  unfold dl_source_launcher_or_meta_get
  by_cases hb : containsSub url bmclapiTok
  · have hc : ¬(¬ (containsSub url bmclapiTok : Prop) ∧ ¬ (containsSub url mcbbsTok : Prop)) := by
      tauto
    simp [hc, hb]
  · by_cases hm : containsSub url mcbbsTok
    · have hc : ¬(¬ (containsSub url bmclapiTok : Prop) ∧ ¬ (containsSub url mcbbsTok : Prop)) := by
        tauto
      simp [hc, hb, hm]
    · have hc : (¬ (containsSub url bmclapiTok : Prop) ∧ ¬ (containsSub url mcbbsTok : Prop)) := by
        tauto
      by_cases he : mirrorSubstituted url = url
      · simp [hc, hb, hm, he]
      · simp [hc, hb, hm, he]

/-- Witness for C6 on the spec's own example input
`https://libraries.minecraft.net/com/mojang/authlib/1.0/authlib-1.0.jar`. -/
theorem c6_source_router_witness :
    dl_source_launcher_or_meta_get
        (("https://libraries.minecraft.net/com/mojang/authlib/1.0/authlib-1.0.jar").toList) =
      if mirrorSubstituted
          (("https://libraries.minecraft.net/com/mojang/authlib/1.0/authlib-1.0.jar").toList) =
          (("https://libraries.minecraft.net/com/mojang/authlib/1.0/authlib-1.0.jar").toList)
      then [("https://libraries.minecraft.net/com/mojang/authlib/1.0/authlib-1.0.jar").toList]
      else [("https://libraries.minecraft.net/com/mojang/authlib/1.0/authlib-1.0.jar").toList,
        mirrorSubstituted
          (("https://libraries.minecraft.net/com/mojang/authlib/1.0/authlib-1.0.jar").toList)] :=
  (c6_source_router _).2.2 (by decide)

/-! ## Manifest loader and version resolution (`client_list.rs`) -/

/-- One element of the manifest's `versions[]` array, reduced to the two
fields the source reads: the optional `id` string and the optional `url`
string (`version.get("id").and_then(as_str)`, same for `url`). -/
structure VersionEntry where
  idField : Option Str
  urlField : Option Str
deriving DecidableEq, Repr

/-- `models.rs: DlClientListResult`, with the parsed JSON document
reduced to its `versions[]` array — the only part the verified code
reads. -/
structure DlClientListResult where
  isOfficial : Bool
  versions : List VersionEntry
deriving DecidableEq, Repr

/-- Outcome of one timed load attempt
(`tokio::time::timeout(budget, load_*())`): either the outer deadline
fired, or the attempt completed within its budget with the inner
`Result` — which may itself be a network or parse error. -/
inductive LoadAttempt where
  | timedOut
  | completed (r : Except DlError DlClientListResult)

/-- `client_list.rs: DlClientListLoader::execute`, preference-0 branch.
`mirror` is the outcome of the 30-second-budget BMCLAPI attempt and
`origin` the outcome of the 90-second-budget official attempt (only
consulted in the mirror-timeout branch).  Returns the surfaced result
paired with whether the origin attempt was issued.  Mirrors
`if let Ok(result) = timeout(30s, load_bmclapi()) { return result; }`:
the `Ok` pattern matches mere completion, so a completed inner error is
returned directly. -/
def executePreferMirror (mirror origin : LoadAttempt) :
    Except DlError DlClientListResult × Bool :=
  match mirror with
  | .completed r => (r, false)
  | .timedOut =>
    match origin with
    | .completed r => (r, true)
    | .timedOut => (.error .timeout, true)

/-- C2 (counterexample): a mirror attempt that completes with a
parse/validation error inside the 30-second budget is surfaced directly
to the caller even though the origin attempt would have succeeded; the
origin attempt is not even issued.  The claim demands a fallback to
origin on any mirror failure. -/
theorem c2_counterexample :
    executePreferMirror
        (.completed (.error (.versionListParse (("version list too short").toList))))
        (.completed (.ok ⟨true, []⟩)) =
      (.error (.versionListParse (("version list too short").toList)), false)
    ∧ (Except.error (.versionListParse (("version list too short").toList))
        : Except DlError DlClientListResult) ≠ .ok ⟨true, []⟩ :=
  ⟨rfl, by simp⟩

/-- C2 (amended): for preference 0 the loader returns the mirror
attempt's inner result — success or error — whenever that attempt
completes within the 30-second budget, without issuing the origin
attempt; the origin fallback under its 90-second budget runs only when
the mirror attempt times out, and its inner result is surfaced as-is;
TimeoutError is raised exactly when both attempts time out. -/
theorem c2_prefer_mirror (mirror origin : LoadAttempt) :
    (∀ r, mirror = .completed r → executePreferMirror mirror origin = (r, false))
    ∧ (mirror = .timedOut → ∀ r, origin = .completed r →
        executePreferMirror mirror origin = (r, true))
    ∧ (mirror = .timedOut → origin = .timedOut →
        executePreferMirror mirror origin = (.error .timeout, true)) := by
  cases mirror <;> cases origin <;> simp [executePreferMirror]

/-- Witness for C2: a timed-out mirror attempt followed by an origin
attempt that completes successfully yields the origin document, with
the origin attempt issued. -/
theorem c2_prefer_mirror_witness :
    executePreferMirror .timedOut (.completed (.ok ⟨true, []⟩)) = (.ok ⟨true, []⟩, true) :=
  (c2_prefer_mirror .timedOut (.completed (.ok ⟨true, []⟩))).2.1 rfl _ rfl

/-- Version-id normalization at the head of
`client_list.rs: dl_client_list_get`: replace every `_` by `-`, then
strip one trailing `.0` unless the replaced id is exactly `1.0`. -/
def normalizeSearchId (id : Str) : Str :=
  let s := id.map (fun c => if c = '_' then '-' else c)
  if s ≠ ("1.0").toList ∧ ((".0").toList).isSuffixOf s then
    s.take (s.length - 2)
  else s

/-- The version-scan loop of `dl_client_list_get`: entries without an
`id` string are skipped; on the first entry whose id equals the search
id, the entry's optional `url` string is returned. -/
def findVersionUrl (searchId : Str) : List VersionEntry → Option Str
  | [] => none
  | v :: rest =>
    match v.idField with
    | some vid => if vid = searchId then v.urlField else findVersionUrl searchId rest
    | none => findVersionUrl searchId rest

/-- `client_list.rs: dl_client_list_get`, with the fetched manifest
abstracted to its `versions[]` array (the loader call is covered by
`executePreferMirror`). -/
def dl_client_list_get (id : Str) (versions : List VersionEntry) : Option Str :=
  findVersionUrl (normalizeSearchId id) versions

/-- Version resolution as the spec words it: normalize the id, then
return the `url` field of the first entry of `versions[]` whose `id`
equals the normalized id, and none on a miss. -/
def resolveVersionUrlSpec (id : Str) (versions : List VersionEntry) : Option Str :=
  (versions.find? (fun v => v.idField == some (normalizeSearchId id))).bind
    (fun v => v.urlField)

/-- The scan loop agrees with the first-match description. -/
theorem findVersionUrl_eq_find? (n : Str) (versions : List VersionEntry) :
    findVersionUrl n versions =
      (versions.find? (fun v => v.idField == some n)).bind (fun v => v.urlField) := by
  induction versions with
  | nil => rfl
  | cons v rest ih =>
    cases h : v.idField with
    | none => simp [findVersionUrl, h, List.find?_cons, ih]
    | some vid =>
      by_cases hv : vid = n
      · subst hv
        simp [findVersionUrl, h, List.find?_cons]
      · simp [findVersionUrl, h, hv, List.find?_cons, ih]

/-- C7: version resolution normalizes the id (every `_` becomes `-`,
then one trailing `.0` is stripped unless the result is exactly `1.0`)
and returns the `url` field of the first matching entry of
`versions[]`, none on a miss; in particular `1_16_5` is searched as
`1-16-5`, `1.16.0` as `1.16`, and `1.0` unchanged. -/
theorem c7_version_resolution (id : Str) (versions : List VersionEntry) :
    dl_client_list_get id versions = resolveVersionUrlSpec id versions
    ∧ normalizeSearchId (("1_16_5").toList) = ("1-16-5").toList
    ∧ normalizeSearchId (("1.16.0").toList) = ("1.16").toList
    ∧ normalizeSearchId (("1.0").toList) = ("1.0").toList :=
  ⟨findVersionUrl_eq_find? (normalizeSearchId id) versions, by decide, by decide, by decide⟩

/-! ## Download value objects (`download/config.rs`, `download/task.rs`) -/

/-- `download/config.rs: DownloadStrategy`. -/
inductive DownloadStrategy where
  | hybrid
  | officialOnly
  | mirrorOnly
deriving DecidableEq, Repr

/-- `download/task.rs: DownloadTask` (sizes in bytes). -/
structure DownloadTask where
  officialUrls : List Str
  mirrorUrls : List Str
  localPath : Str
  fileSize : Option Nat
  sha1 : Option Str
deriving DecidableEq, Repr

/-- `DownloadTask::new`. -/
def DownloadTask.new (officialUrls mirrorUrls : List Str) (localPath : Str) : DownloadTask :=
  ⟨officialUrls, mirrorUrls, localPath, none, none⟩

/-- `DownloadTask::get_urls_by_strategy`. -/
def DownloadTask.get_urls_by_strategy (t : DownloadTask) (strategy : DownloadStrategy) :
    List Str :=
  match strategy with
  | .hybrid => t.officialUrls ++ t.mirrorUrls
  | .officialOnly => t.officialUrls
  | .mirrorOnly => t.mirrorUrls

/-! ## Ranged chunking (`download/downloader.rs: download_large_file`,
`merge_chunks`)

The remote file is modelled as its byte sequence `data : List Nat`; a
successful range request for bytes `[start, end]` returns exactly that
inclusive slice, which the chunk worker stores as `part_i`. -/

/-- Start offset of chunk `i`: `i * (file_size / chunk_count)` (integer
division, as in the source). -/
def chunkStart (fileSize chunkCount i : Nat) : Nat :=
  i * (fileSize / chunkCount)

/-- Inclusive end offset of chunk `i`: the last chunk absorbs the
remainder up to `file_size - 1`. -/
def chunkEnd (fileSize chunkCount i : Nat) : Nat :=
  if i = chunkCount - 1 then fileSize - 1
  else (i + 1) * (fileSize / chunkCount) - 1

/-- The body of a 206 response for `Range: bytes=start-end`: the
inclusive byte slice of the remote file. -/
def byteRange (data : List Nat) (start endIdx : Nat) : List Nat :=
  (data.drop start).take (endIdx + 1 - start)

/-- The chunk files `part_0 … part_{n-1}` produced by the chunk
workers, in index order. -/
def rangedChunks (data : List Nat) (fileSize chunkCount : Nat) : List (List Nat) :=
  (List.range chunkCount).map
    (fun i => byteRange data (chunkStart fileSize chunkCount i) (chunkEnd fileSize chunkCount i))

/-- `merge_chunks`: concatenate the chunk files in index order into the
output file. -/
def mergeChunks (parts : List (List Nat)) : List Nat :=
  parts.flatten

/-- Joining the first `j` chunks reproduces the prefix of the data up
to offset `j * (S / n)`, for `j` below the last chunk index. -/
theorem joinChunks_take (S n : Nat) (data : List Nat) (hn : 0 < n) (hS : n ≤ S) :
    ∀ j, j ≤ n - 1 →
      ((List.range j).map
          (fun i => byteRange data (chunkStart S n i) (chunkEnd S n i))).flatten
        = data.take (j * (S / n)) := by
  have hcs : 1 ≤ S / n := (Nat.one_le_div_iff hn).mpr hS
  intro j
  induction j with
  | zero => intro _; simp
  | succ j ih =>
    intro hj
    have hj' : j ≤ n - 1 := Nat.le_of_succ_le hj
    have hjne : j ≠ n - 1 := by omega
    rw [List.range_succ, List.map_append, List.flatten_append, ih hj']
    have hchunk :
        byteRange data (chunkStart S n j) (chunkEnd S n j)
          = (data.drop (j * (S / n))).take (S / n) := by
      unfold byteRange chunkStart chunkEnd
      rw [if_neg hjne]
      congr 1
      have : (j + 1) * (S / n) = j * (S / n) + S / n := by ring
      omega
    rw [List.map_singleton, List.flatten_singleton, hchunk, ← List.take_add]
    congr 1
    ring

/-- C5: for every expected size `S` and chunk count `n` with
`S ≥ n ≥ 1`, the ranged path splits `[0, S-1]` into `n` contiguous
ranges `[i·⌊S/n⌋, (i+1)·⌊S/n⌋ - 1]` for `i < n-1`, the last range
ending at `S-1`, and concatenating `part_0 … part_{n-1}` in index order
reproduces the original `S` bytes byte-for-byte. -/
theorem c5_ranged_roundtrip (S n : Nat) (data : List Nat)
    (hn : 1 ≤ n) (hS : n ≤ S) (hlen : data.length = S) :
    (∀ i, i < n - 1 →
      chunkStart S n i = i * (S / n) ∧ chunkEnd S n i = (i + 1) * (S / n) - 1)
    ∧ chunkEnd S n (n - 1) = S - 1
    ∧ mergeChunks (rangedChunks data S n) = data := by
  have hcs : 1 ≤ S / n := (Nat.one_le_div_iff hn).mpr hS
  refine ⟨?_, ?_, ?_⟩
  · intro i hi
    exact ⟨rfl, by unfold chunkEnd; rw [if_neg (by omega)]⟩
  · unfold chunkEnd
    rw [if_pos rfl]
  · have hsplit : n = (n - 1) + 1 := by omega
    have hlast : (n - 1) * (S / n) ≤ S := by
      calc (n - 1) * (S / n) ≤ n * (S / n) := by
            exact Nat.mul_le_mul_right _ (by omega)
        _ ≤ S := by
            rw [Nat.mul_comm]
            exact Nat.div_mul_le_self S n
    unfold mergeChunks rangedChunks
    have hrange : List.range n = List.range (n - 1) ++ [n - 1] := by
      conv_lhs => rw [hsplit]
      rw [List.range_succ]
    rw [hrange, List.map_append, List.flatten_append,
      joinChunks_take S n data (by omega) hS (n - 1) (le_refl _)]
    have hchunk :
        byteRange data (chunkStart S n (n - 1)) (chunkEnd S n (n - 1))
          = data.drop ((n - 1) * (S / n)) := by
      unfold byteRange chunkStart chunkEnd
      rw [if_pos rfl]
      have h1 : S - 1 + 1 - (n - 1) * (S / n) = S - (n - 1) * (S / n) := by omega
      rw [h1]
      apply List.take_of_length_le
      rw [List.length_drop, hlen]
    rw [List.map_singleton, List.flatten_singleton, hchunk, List.take_append_drop]

/-- Witness for C5 at `S = 10`, `n = 3`, data `0,…,9`: the three ranges
are `[0,2]`, `[3,5]`, `[6,9]` and the merge reproduces the data. -/
theorem c5_ranged_roundtrip_witness :
    mergeChunks (rangedChunks (List.range 10) 10 3) = List.range 10 :=
  (c5_ranged_roundtrip 10 3 (List.range 10) (by decide) (by decide) (by simp)).2.2

/-! ## Single-stream download path (`download/downloader.rs:
download_small_file`, `try_download_single`)

One HTTP attempt (`try_download_single`) either fails before anything
is written (transport error or non-success status) or succeeds and
overwrites `local_path` with the body.  The network is an oracle from
(URL index, attempt index) to the attempt outcome; SHA-1 is an abstract
hash function on byte sequences (`calculate_sha1` hashing is modelled
as total; a hash-IO error in the source merely makes the attempt count
as failed, like a mismatch). -/

/-- Result of `Result<()>` in the sources. -/
inductive DlResult where
  | ok
  | err (e : DlError)
deriving DecidableEq, Repr

/-- Outcome of one `try_download_single` call. -/
inductive HttpResult where
  | fail
  | ok (bytes : List Nat)
deriving DecidableEq, Repr

/-- The per-URL retry budget of `download_small_file`: under Hybrid an
origin URL (`i < official_urls.len()`) gets 2 attempts, any other URL
gets `max_retries`; under the other strategies always `max_retries`. -/
def retriesFor (strategy : DownloadStrategy) (officialLen maxRetries i : Nat) : Nat :=
  match strategy with
  | .hybrid => if i < officialLen then 2 else maxRetries
  | _ => maxRetries

/-- Whether one attempt lets `download_small_file` return success: the
HTTP attempt succeeded and, when an expected hash is set, the hash of
the written bytes matches it. -/
def attemptSucceeds (sha1Of : List Nat → Str) (expected : Option Str) :
    HttpResult → Bool
  | .fail => false
  | .ok bytes =>
    match expected with
    | none => true
    | some h => sha1Of bytes = h

/-- Result of running the attempt loop for one URL. -/
structure UrlRun where
  fs : Option (List Nat)
  attempts : Nat
  writes : List (List Nat)
  success : Bool
deriving DecidableEq, Repr

/-- The inner `for attempt in 0..retries` loop of
`download_small_file` at URL index `i`: a failed attempt sleeps and
retries; a successful attempt writes the body and returns success
unless the expected hash mismatches, in which case the loop continues
with the (bad) bytes left on disk. -/
def runUrl (sha1Of : List Nat → Str) (expected : Option Str)
    (oracle : Nat → Nat → HttpResult) (i : Nat) :
    Nat → Nat → Option (List Nat) → UrlRun
  | 0, _, fs => ⟨fs, 0, [], false⟩
  | budget + 1, a, fs =>
    match oracle i a with
    | .fail =>
      let r := runUrl sha1Of expected oracle i budget (a + 1) fs
      ⟨r.fs, r.attempts + 1, r.writes, r.success⟩
    | .ok bytes =>
      match expected with
      | none => ⟨some bytes, 1, [bytes], true⟩
      | some h =>
        if sha1Of bytes = h then ⟨some bytes, 1, [bytes], true⟩
        else
          let r := runUrl sha1Of expected oracle i budget (a + 1) (some bytes)
          ⟨r.fs, r.attempts + 1, bytes :: r.writes, r.success⟩

/-- Result of the whole single-stream download. -/
structure SmallRun where
  fs : Option (List Nat)
  attemptCounts : List Nat
  writes : List (List Nat)
  result : DlResult
deriving DecidableEq, Repr

/-- The outer `for (url_index, url) in urls.iter().enumerate()` loop of
`download_small_file`: each URL gets its per-source budget; after
exhausting every URL the call fails with "all URLs failed" (message
abstracted). -/
def runUrls (sha1Of : List Nat → Str) (expected : Option Str)
    (oracle : Nat → Nat → HttpResult) (strategy : DownloadStrategy)
    (officialLen maxRetries : Nat) :
    Nat → List Str → Option (List Nat) → SmallRun
  | _, [], fs => ⟨fs, [], [], .err (.loaderExecution (("all URLs failed").toList))⟩
  | i, _ :: rest, fs =>
    let r := runUrl sha1Of expected oracle i
      (retriesFor strategy officialLen maxRetries i) 0 fs
    if r.success then ⟨r.fs, [r.attempts], r.writes, .ok⟩
    else
      let r2 := runUrls sha1Of expected oracle strategy officialLen maxRetries
        (i + 1) rest r.fs
      ⟨r2.fs, r.attempts :: r2.attemptCounts, r.writes ++ r2.writes, r2.result⟩

/-- `download_small_file(task, urls)`: the expected hash and the origin
URL count come from the task, the strategy and retry cap from the
config. -/
def download_small_file (sha1Of : List Nat → Str) (oracle : Nat → Nat → HttpResult)
    (strategy : DownloadStrategy) (maxRetries : Nat) (task : DownloadTask)
    (urls : List Str) (fs : Option (List Nat)) : SmallRun :=
  runUrls sha1Of task.sha1 oracle strategy task.officialUrls.length maxRetries 0 urls fs

/-- The file content left after a sequence of overwrites: the last
written blob wins, and the prior content survives when nothing was
written. -/
def lastOr : List (List Nat) → Option (List Nat) → Option (List Nat)
  | [], fs => fs
  | b :: ws, _ => lastOr ws (some b)

theorem lastOr_cons (b : List Nat) (ws : List (List Nat)) (fs : Option (List Nat)) :
    lastOr (b :: ws) fs = lastOr ws (some b) := rfl

theorem lastOr_append (w1 w2 : List (List Nat)) (fs : Option (List Nat)) :
    lastOr (w1 ++ w2) fs = lastOr w2 (lastOr w1 fs) := by
  induction w1 generalizing fs with
  | nil => simp [lastOr]
  | cons b bs ih => rw [List.cons_append, lastOr_cons, ih, lastOr_cons]

/-- The attempt loop only ever overwrites the target: the final content
is the last written body, or the prior content when no attempt wrote. -/
theorem runUrl_fs (sha1Of : List Nat → Str) (expected : Option Str)
    (oracle : Nat → Nat → HttpResult) (i : Nat) :
    ∀ budget a fs, (runUrl sha1Of expected oracle i budget a fs).fs
      = lastOr (runUrl sha1Of expected oracle i budget a fs).writes fs := by
  intro budget
  induction budget with
  | zero => intro a fs; simp [runUrl, lastOr]
  | succ b ih =>
    intro a fs
    simp only [runUrl]
    cases oracle i a with
    | fail => simpa using ih (a + 1) fs
    | ok bytes =>
      cases expected with
      | none => simp [lastOr]
      | some hh =>
        by_cases hb : sha1Of bytes = hh
        · simp [hb, lastOr]
        · simp only [hb, if_false, if_neg]
          rw [lastOr_cons]
          simpa using ih (a + 1) (some bytes)

/-- In an attempt loop that does not succeed, every written body fails
the hash check. -/
theorem runUrl_writes_bad (sha1Of : List Nat → Str) (hh : Str)
    (oracle : Nat → Nat → HttpResult) (i : Nat) :
    ∀ budget a fs, (runUrl sha1Of (some hh) oracle i budget a fs).success = false →
      ∀ b ∈ (runUrl sha1Of (some hh) oracle i budget a fs).writes, sha1Of b ≠ hh := by
  intro budget
  induction budget with
  | zero => intro a fs _; simp [runUrl]
  | succ n ih =>
    intro a fs hsucc
    simp only [runUrl] at hsucc ⊢
    cases h : oracle i a with
    | fail =>
      simp only [h] at hsucc
      simp only []
      simpa using ih (a + 1) fs (by simpa using hsucc)
    | ok bytes =>
      simp only [h] at hsucc
      by_cases hb : sha1Of bytes = hh
      · simp [hb] at hsucc
      · simp only [hb, if_false] at hsucc ⊢
        intro b hbmem
        rcases List.mem_cons.mp (by simpa using hbmem) with hbe | hbm
        · simpa [hbe] using hb
        · exact ih (a + 1) (some bytes) (by simpa using hsucc) b hbm

/-- When every attempt at URL `i` fails, the loop makes exactly its
budget of attempts and does not succeed. -/
theorem runUrl_all_fail (sha1Of : List Nat → Str) (expected : Option Str)
    (oracle : Nat → Nat → HttpResult) (i : Nat)
    (hfail : ∀ a, attemptSucceeds sha1Of expected (oracle i a) = false) :
    ∀ budget a fs, (runUrl sha1Of expected oracle i budget a fs).attempts = budget
      ∧ (runUrl sha1Of expected oracle i budget a fs).success = false := by
  cases hexp : expected with
  | none =>
    intro budget
    induction budget with
    | zero => intro a fs; simp [runUrl]
    | succ n ih =>
      intro a fs
      have ha := hfail a
      rw [hexp] at ha
      simp only [runUrl]
      cases h : oracle i a with
      | fail => simpa using ih (a + 1) fs
      | ok bytes => rw [h] at ha; simp [attemptSucceeds] at ha
  | some hh =>
    intro budget
    induction budget with
    | zero => intro a fs; simp [runUrl]
    | succ n ih =>
      intro a fs
      have ha := hfail a
      rw [hexp] at ha
      simp only [runUrl]
      cases h : oracle i a with
      | fail => simpa using ih (a + 1) fs
      | ok bytes =>
        rw [h] at ha
        have hb : ¬ sha1Of bytes = hh := by
          simpa [attemptSucceeds] using ha
        simp only [hb, if_false]
        simpa using ih (a + 1) (some bytes)

/-- Under an all-failing oracle the outer loop visits every URL,
spending exactly the per-source budget on each. -/
theorem runUrls_all_fail (sha1Of : List Nat → Str) (expected : Option Str)
    (oracle : Nat → Nat → HttpResult) (strategy : DownloadStrategy)
    (officialLen maxRetries : Nat)
    (hfail : ∀ i a, attemptSucceeds sha1Of expected (oracle i a) = false) :
    ∀ (urls : List Str) (i : Nat) (fs : Option (List Nat)),
      (runUrls sha1Of expected oracle strategy officialLen maxRetries
          i urls fs).attemptCounts.length = urls.length
      ∧ ∀ k, k < urls.length →
          (runUrls sha1Of expected oracle strategy officialLen maxRetries
              i urls fs).attemptCounts.getD k 0
            = retriesFor strategy officialLen maxRetries (i + k) := by
  intro urls
  induction urls with
  | nil => intro i fs; simp [runUrls]
  | cons u rest ih =>
    intro i fs
    have hr := runUrl_all_fail sha1Of expected oracle i (fun a => hfail i a)
      (retriesFor strategy officialLen maxRetries i) 0 fs
    simp only [runUrls]
    rw [if_neg (by simp [hr.2])]
    have hih := ih (i + 1)
      (runUrl sha1Of expected oracle i
        (retriesFor strategy officialLen maxRetries i) 0 fs).fs
    refine ⟨by simp [hih.1], ?_⟩
    intro k hk
    cases k with
    | zero => simpa using hr.1
    | succ k' =>
      have hrec := hih.2 k' (by simpa using hk)
      have harith : i + 1 + k' = i + (k' + 1) := by omega
      rw [harith] at hrec
      simpa using hrec

/-- The outer loop, like the inner one, only ever overwrites the
target file: the final content is the last written body, or the prior
content when no attempt wrote. -/
theorem runUrls_fs (sha1Of : List Nat → Str) (expected : Option Str)
    (oracle : Nat → Nat → HttpResult) (strategy : DownloadStrategy)
    (officialLen maxRetries : Nat) :
    ∀ (urls : List Str) (i : Nat) (fs : Option (List Nat)),
      (runUrls sha1Of expected oracle strategy officialLen maxRetries i urls fs).fs
        = lastOr (runUrls sha1Of expected oracle strategy officialLen maxRetries
            i urls fs).writes fs := by
  intro urls
  induction urls with
  | nil => intro i fs; simp [runUrls, lastOr]
  | cons u rest ih =>
    intro i fs
    simp only [runUrls]
    by_cases hs : (runUrl sha1Of expected oracle i
        (retriesFor strategy officialLen maxRetries i) 0 fs).success
    · rw [if_pos hs]
      exact runUrl_fs sha1Of expected oracle i _ 0 fs
    · rw [if_neg hs]
      rw [lastOr_append, ← runUrl_fs sha1Of expected oracle i _ 0 fs]
      exact ih (i + 1) _

/-- In a run that errors out, every body written along the way failed
the hash check. -/
theorem runUrls_writes_bad (sha1Of : List Nat → Str) (hh : Str)
    (oracle : Nat → Nat → HttpResult) (strategy : DownloadStrategy)
    (officialLen maxRetries : Nat) :
    ∀ (urls : List Str) (i : Nat) (fs : Option (List Nat)) (e : DlError),
      (runUrls sha1Of (some hh) oracle strategy officialLen maxRetries
          i urls fs).result = .err e →
      ∀ b ∈ (runUrls sha1Of (some hh) oracle strategy officialLen maxRetries
          i urls fs).writes, sha1Of b ≠ hh := by
  intro urls
  induction urls with
  | nil => intro i fs e _; simp [runUrls]
  | cons u rest ih =>
    intro i fs e herr
    simp only [runUrls] at herr ⊢
    by_cases hs : (runUrl sha1Of (some hh) oracle i
        (retriesFor strategy officialLen maxRetries i) 0 fs).success
    · rw [if_pos hs] at herr
      exact absurd herr (by simp)
    · rw [if_neg hs] at herr ⊢
      intro b hb
      rcases List.mem_append.mp (by simpa using hb) with hb1 | hb2
      · exact runUrl_writes_bad sha1Of hh oracle i _ 0 fs
          (Bool.eq_false_iff.mpr hs) b hb1
      · exact ih (i + 1) _ e (by simpa using herr) b hb2

/-- C4: in the single-stream path, when every attempt fails, the
downloader spends on each URL exactly its per-source budget before
advancing — 2 attempts for a Hybrid-strategy URL whose index is below
the length of the task's origin URL list, `max_retries` attempts for
later (mirror) URLs, and `max_retries` attempts for every URL under
the other strategies. -/
theorem c4_retry_budget (sha1Of : List Nat → Str) (oracle : Nat → Nat → HttpResult)
    (strategy : DownloadStrategy) (maxRetries : Nat) (task : DownloadTask)
    (urls : List Str) (fs : Option (List Nat))
    (hfail : ∀ i a, attemptSucceeds sha1Of task.sha1 (oracle i a) = false) :
    (download_small_file sha1Of oracle strategy maxRetries task
        urls fs).attemptCounts.length = urls.length
    ∧ ∀ i, i < urls.length →
        (download_small_file sha1Of oracle strategy maxRetries task
            urls fs).attemptCounts.getD i 0
          = match strategy with
            | .hybrid => if i < task.officialUrls.length then 2 else maxRetries
            | _ => maxRetries := by
  have h := runUrls_all_fail sha1Of task.sha1 oracle strategy
    task.officialUrls.length maxRetries hfail urls 0 fs
  refine ⟨h.1, ?_⟩
  intro i hi
  have hg := h.2 i hi
  rw [Nat.zero_add] at hg
  unfold download_small_file
  rw [hg]
  rfl

/-- Witness for C4: Hybrid strategy, two origin URLs, one mirror URL,
`max_retries = 3`, every attempt failing: the three per-URL attempt
counts are 2, 2 and 3. -/
theorem c4_retry_budget_witness :
    (download_small_file (fun _ => []) (fun _ _ => .fail) .hybrid 3
        (DownloadTask.new [("a").toList, ("b").toList] [("c").toList] (("p").toList))
        [("a").toList, ("b").toList, ("c").toList] none).attemptCounts.length = 3
    ∧ ∀ i, i < 3 →
        (download_small_file (fun _ => []) (fun _ _ => .fail) .hybrid 3
            (DownloadTask.new [("a").toList, ("b").toList] [("c").toList] (("p").toList))
            [("a").toList, ("b").toList, ("c").toList] none).attemptCounts.getD i 0
          = if i < 2 then 2 else 3 :=
  c4_retry_budget (fun _ => []) (fun _ _ => .fail) .hybrid 3
    (DownloadTask.new [("a").toList, ("b").toList] [("c").toList] (("p").toList))
    [("a").toList, ("b").toList, ("c").toList] none (fun _ _ => rfl)

/-- C9: when the single-stream path returns an error although at least
one HTTP attempt succeeded, the target file is left in place holding
the bytes of the last successful (but unverified) attempt: the error
path neither deletes nor restores `local_path`, so a failed download
is not atomic with respect to the target file.  Concretely, the final
file state is the last written body (or the untouched prior state when
no attempt wrote), and every written body fails the SHA-1 check. -/
theorem c9_failed_download_leaves_file (sha1Of : List Nat → Str)
    (oracle : Nat → Nat → HttpResult) (strategy : DownloadStrategy)
    (maxRetries : Nat) (task : DownloadTask) (urls : List Str)
    (fs0 : Option (List Nat)) (hh : Str) (e : DlError)
    (hsha : task.sha1 = some hh)
    (herr : (download_small_file sha1Of oracle strategy maxRetries task
        urls fs0).result = .err e) :
    (download_small_file sha1Of oracle strategy maxRetries task urls fs0).fs
      = lastOr (download_small_file sha1Of oracle strategy maxRetries task
          urls fs0).writes fs0
    ∧ ∀ b ∈ (download_small_file sha1Of oracle strategy maxRetries task
        urls fs0).writes, sha1Of b ≠ hh := by
  unfold download_small_file at herr ⊢
  rw [hsha] at herr ⊢
  exact ⟨runUrls_fs sha1Of (some hh) oracle strategy task.officialUrls.length
      maxRetries urls 0 fs0,
    runUrls_writes_bad sha1Of hh oracle strategy task.officialUrls.length
      maxRetries urls 0 fs0 e herr⟩

/-- Witness for C9: one origin URL, Hybrid budget 2; the first attempt
downloads bytes whose hash mismatches, the second attempt fails; the
run errors and the mismatching bytes are left on disk. -/
theorem c9_failed_download_leaves_file_witness :
    (download_small_file (fun _ => ("00").toList)
        (fun i a => if i = 0 ∧ a = 0 then .ok [1, 2, 3] else .fail)
        .hybrid 3
        { officialUrls := [("u").toList], mirrorUrls := [],
          localPath := ("p").toList, fileSize := none,
          sha1 := some (("ff").toList) }
        [("u").toList] none).fs
      = lastOr (download_small_file (fun _ => ("00").toList)
          (fun i a => if i = 0 ∧ a = 0 then .ok [1, 2, 3] else .fail)
          .hybrid 3
          { officialUrls := [("u").toList], mirrorUrls := [],
            localPath := ("p").toList, fileSize := none,
            sha1 := some (("ff").toList) }
          [("u").toList] none).writes none
    ∧ ∀ b ∈ (download_small_file (fun _ => ("00").toList)
        (fun i a => if i = 0 ∧ a = 0 then .ok [1, 2, 3] else .fail)
        .hybrid 3
        { officialUrls := [("u").toList], mirrorUrls := [],
          localPath := ("p").toList, fileSize := none,
          sha1 := some (("ff").toList) }
        [("u").toList] none).writes, (fun _ => ("00").toList) b ≠ ("ff").toList :=
  c9_failed_download_leaves_file (fun _ => ("00").toList)
    (fun i a => if i = 0 ∧ a = 0 then .ok [1, 2, 3] else .fail)
    .hybrid 3
    { officialUrls := [("u").toList], mirrorUrls := [],
      localPath := ("p").toList, fileSize := none,
      sha1 := some (("ff").toList) }
    [("u").toList] none (("ff").toList)
    (.loaderExecution (("all URLs failed").toList)) rfl (by decide)

/-! ## Batch execution (`download/downloader.rs: download_batch`)

`download_batch` maps `download_file` over the task list through
`futures::stream::buffer_unordered(thread_pool_size)` and `collect`s.
`buffer_unordered` yields each item as its future completes, so the
collected vector is in completion order, not input order.  The model
takes the per-task outcome list (`outcomes.getD i` is the outcome of
`download_file` on the i-th input task) and an internal completion
order; validity of the order captures the `buffer_unordered` admission
discipline (at most `k` tasks in flight, so the j-th completion comes
from the first `j + k` inputs) on top of being a permutation of the
input indices. -/

/-- The vector `collect`ed by `download_batch`: the outcomes listed in
internal completion order. -/
def downloadBatchResults (outcomes : List DlResult) (order : List Nat) : List DlResult :=
  order.map (fun i => outcomes.getD i (.err .aborted))

/-- A possible internal completion order for `n` tasks under buffer
size `k`: a permutation of the input indices whose j-th element is an
index among the first `j + k` inputs. -/
def ValidCompletionOrder (k n : Nat) (order : List Nat) : Prop :=
  order.Perm (List.range n) ∧ ∀ j, j < order.length → order.getD j 0 < j + k

/-- Mapping index lookup over the index range reconstructs the list. -/
theorem map_getD_range (l : List DlResult) (d : DlResult) :
    (List.range l.length).map (fun i => l.getD i d) = l := by
  apply List.ext_getElem
  · simp
  · intro i h1 h2
    simp only [List.getElem_map, List.getElem_range]
    rw [List.getD_eq_getElem l d h2]

/-- C1 (counterexample): with two tasks, default buffer size 64 and
the (admissible) completion order in which the second task finishes
first, the collected vector pairs index 0 with the outcome of input
task 1 — the claim's input-order correspondence fails. -/
theorem c1_counterexample :
    ValidCompletionOrder 64 2 [1, 0]
    ∧ downloadBatchResults [.ok, .err .timeout] [1, 0] = [.err .timeout, .ok]
    ∧ ([DlResult.err .timeout, .ok] : List DlResult) ≠ [.ok, .err .timeout] := by
  refine ⟨⟨by decide, by decide⟩, rfl, by simp⟩

/-- C1 (amended): for every list of input tasks and every admissible
internal completion order, `download_batch` returns a sequence of the
same length as the input whose elements are exactly the per-task
outcomes of the input tasks, but listed in completion order — a
permutation of the input-order outcome sequence rather than the
input-aligned gather the spec describes. -/
theorem c1_batch_gather (outcomes : List DlResult) (k : Nat) (order : List Nat)
    (hv : ValidCompletionOrder k outcomes.length order) :
    (downloadBatchResults outcomes order).length = outcomes.length
    ∧ (downloadBatchResults outcomes order).Perm outcomes := by
  constructor
  · unfold downloadBatchResults
    rw [List.length_map, hv.1.length_eq, List.length_range]
  · unfold downloadBatchResults
    have hperm := hv.1.map (fun i => outcomes.getD i (.err .aborted))
    rw [map_getD_range outcomes (.err .aborted)] at hperm
    exact hperm

/-- Witness for C1 at the counterexample instance: the returned
sequence has length 2 and is a permutation of the input outcomes. -/
theorem c1_batch_gather_witness :
    (downloadBatchResults [.ok, .err .timeout] [1, 0]).length = 2
    ∧ (downloadBatchResults [.ok, .err .timeout] [1, 0]).Perm [.ok, .err .timeout] :=
  c1_batch_gather [.ok, .err .timeout] 64 [1, 0] ⟨by decide, by decide⟩

/-! ## File checking and the client-jar planner (`models.rs`,
`tasks/client.rs`)

The local filesystem is modelled as a map from path to file data; the
file data carries the two observables the checkers talk about, the
byte size (as the `i64` view used by the checker fields) and the SHA-1
of the content. -/

/-- A local file as far as checking is concerned. -/
structure FileData where
  size : Int
  sha1 : Str
deriving DecidableEq, Repr

/-- The local filesystem: path to file data. -/
abbrev FsState := Str → Option FileData

/-- `models.rs: FileChecker`. -/
structure FileChecker where
  minSize : Option Int
  actualSize : Option Int
  hash : Option Str
  canUseExists : Bool
  isJson : Bool
deriving DecidableEq, Repr

/-- `FileChecker::new` / `Default`. -/
def FileChecker.new : FileChecker := ⟨none, none, none, true, false⟩

def FileChecker.with_min_size (c : FileChecker) (s : Int) : FileChecker :=
  { c with minSize := some s }

def FileChecker.with_actual_size (c : FileChecker) (s : Int) : FileChecker :=
  { c with actualSize := some s }

def FileChecker.with_hash (c : FileChecker) (h : Str) : FileChecker :=
  { c with hash := some h }

def FileChecker.with_can_use_exists (c : FileChecker) (b : Bool) : FileChecker :=
  { c with canUseExists := b }

def FileChecker.with_is_json (c : FileChecker) (b : Bool) : FileChecker :=
  { c with isJson := b }

/-- `models.rs: FileChecker::check` as written in the source: despite
the configured sizes and hash it only tests that the path exists (its
own comment says the real implementation should check file size and
hash).  Returns `none` for "valid", `some msg` otherwise. -/
def FileChecker.check (_c : FileChecker) (fs : FsState) (path : Str) : Option Str :=
  if (fs path).isSome then none else some (("file does not exist").toList)

/-- The full check the spec and claim C3 describe for the client jar:
the file exists, its size is at least `min_size`, its size equals the
expected size, and its SHA-1 equals the expected hash (each test
skipped when the corresponding field is unset). -/
def fileUsableSpec (fs : FsState) (c : FileChecker) (path : Str) : Bool :=
  match fs path with
  | none => false
  | some fd =>
    (match c.minSize with | none => true | some m => decide (m ≤ fd.size))
    && (match c.actualSize with | none => true | some sz => decide (fd.size = sz))
    && (match c.hash with | none => true | some h => decide (fd.sha1 = h))

/-- `models.rs: NetFile`. -/
structure NetFile where
  urls : List Str
  localPath : Str
  checker : FileChecker
deriving DecidableEq, Repr

/-- The `downloads.client` object of a version JSON, reduced to the
three fields `dl_client_jar_get` reads. -/
structure ClientDownloadJson where
  url : Option Str
  size : Option Int
  sha1 : Option Str
deriving DecidableEq, Repr

/-- The `downloads` object of a version JSON. -/
structure DownloadsJson where
  client : Option ClientDownloadJson
deriving DecidableEq, Repr

/-- `models.rs: McInstance`, with `json_object` reduced to the
`downloads` subtree read by `dl_client_jar_get`. -/
structure McInstance where
  name : Str
  inheritName : Option Str
  downloads : Option DownloadsJson
  pathVersion : Str
deriving DecidableEq, Repr

/-- `tasks/client.rs: dl_client_jar_get`: extract `downloads.client`
(url, size defaulting to -1, sha1 defaulting to the empty string),
build the checker with `min_size = 1024`, `actual_size = size`,
`hash = sha1`, and — when the caller asked to skip usable files and
`checker.check` reports the file valid — omit the task; otherwise
return the NetFile with the routed URL list. -/
def dl_client_jar_get (fs : FsState) (inst : McInstance)
    (returnNothingOnFileUseable : Bool) : Except DlError (Option NetFile) :=
  match inst.downloads with
  | none => .error (.downloadInfoNotFound (("no jar download info").toList))
  | some downloads =>
    match downloads.client with
    | none => .error (.downloadInfoNotFound (("no jar download info").toList))
    | some client =>
      match client.url with
      | none => .error (.downloadInfoNotFound (("no jar download info").toList))
      | some jarUrl =>
        let size := client.size.getD (-1)
        let sha1 := client.sha1
        let checker :=
          (((FileChecker.new).with_min_size 1024).with_actual_size size).with_hash
            (sha1.getD [])
        let jarPath := inst.pathVersion ++ inst.name ++ (".jar").toList
        if returnNothingOnFileUseable && (checker.check fs jarPath).isNone then
          .ok none
        else
          .ok (some ⟨dl_source_launcher_or_meta_get jarUrl, jarPath, checker⟩)

/-- C3 (code bug): the claim — jar download omitted only when the
existing file passes the full check (exists, size ≥ 1024, size and
SHA-1 match) — states the intended behaviour, but `FileChecker::check`
is a stub that only tests existence.  At a version JSON carrying
`downloads.client` with `size = 4096`, `sha1 = "abc"`, and a local jar
of size 10 with SHA-1 `"00"`, the call with
`return_nothing_on_file_useable = true` omits the download even though
the full check fails. -/
theorem c3_jar_skip_code_bug :
    dl_client_jar_get
        (fun p => if p = ("versions/1.20/1.20.jar").toList
          then some ⟨10, ("00").toList⟩ else none)
        { name := ("1.20").toList, inheritName := none,
          downloads := some ⟨some ⟨some (("https://launchermeta.mojang.com/jar").toList),
            some 4096, some (("abc").toList)⟩⟩,
          pathVersion := ("versions/1.20/").toList }
        true = .ok none
    ∧ fileUsableSpec
        (fun p => if p = ("versions/1.20/1.20.jar").toList
          then some ⟨10, ("00").toList⟩ else none)
        ((((FileChecker.new).with_min_size 1024).with_actual_size 4096).with_hash
          (("abc").toList))
        (("versions/1.20/1.20.jar").toList) = false :=
  ⟨rfl, by decide⟩

/-! ## Asset task collection (`tasks/client.rs: collect_asset_tasks`)

The parsed asset index is reduced to its `objects` map, in iteration
order; each entry contributes its optional `hash` string (the only
field read).  The slice `&hash[..2]` panics when the hash has fewer
than 2 bytes; a panic aborts the whole call, which the model renders
as `none`.  (Byte-level char boundaries are abstracted: asset hashes
are ASCII hex, where byte length and character length coincide.) -/

structure AssetObject where
  hash : Option Str
deriving DecidableEq, Repr

/-- `DownloadClientTask::collect_asset_tasks` over the parsed `objects`
entries. -/
def collect_asset_tasks (minecraftDir : Str) : List AssetObject → Option (List DownloadTask)
  | [] => some []
  | o :: rest =>
    match o.hash with
    | none => collect_asset_tasks minecraftDir rest
    | some h =>
      if h.length < 2 then none
      else
        let hashPre := h.take 2
        let officialUrl :=
          ("https://resources.download.minecraft.net/").toList ++ hashPre
            ++ ("/").toList ++ h
        let mirrorUrl :=
          ("https://bmclapi2.bangbang93.com/assets/").toList ++ hashPre
            ++ ("/").toList ++ h
        let localPath :=
          minecraftDir ++ ("/assets/objects/").toList ++ hashPre ++ ("/").toList ++ h
        (collect_asset_tasks minecraftDir rest).map
          (fun ts => DownloadTask.new [officialUrl] [mirrorUrl] localPath :: ts)

/-- C10: `collect_asset_tasks` slices the first two bytes of each hash;
an asset index containing the one-byte hash `"a"` makes it panic
(modelled as `none`) instead of returning a task list, and totality
holds as soon as every hash in the index is at least 2 bytes long. -/
theorem c10_asset_hash_slice (minecraftDir : Str) :
    collect_asset_tasks minecraftDir [⟨some (("a").toList)⟩] = none
    ∧ ∀ objects : List AssetObject,
        (∀ o ∈ objects, ∀ h, o.hash = some h → 2 ≤ h.length) →
        (collect_asset_tasks minecraftDir objects).isSome := by
  refine ⟨rfl, ?_⟩
  intro objects
  induction objects with
  | nil => intro _; simp [collect_asset_tasks]
  | cons o rest ih =>
    intro hlen
    have hrest := ih (fun o ho h hh => hlen o (List.mem_cons_of_mem _ ho) h hh)
    cases ho : o.hash with
    | none => simpa [collect_asset_tasks, ho] using hrest
    | some h =>
      have h2 : 2 ≤ h.length := hlen o (List.mem_cons_self _ _) h ho
      simp only [collect_asset_tasks, ho]
      rw [if_neg (by omega)]
      simpa using hrest

/-- Witness for C10: an index whose single entry has the 40-character
hash `"0123456789abcdef0123456789abcdef01234567"` yields a task
list. -/
theorem c10_asset_hash_slice_witness :
    (collect_asset_tasks ((".minecraft").toList)
        [⟨some (("0123456789abcdef0123456789abcdef01234567").toList)⟩]).isSome :=
  (c10_asset_hash_slice ((".minecraft").toList)).2
    [⟨some (("0123456789abcdef0123456789abcdef01234567").toList)⟩]
    (by decide)

/-! ## Task manager (`task.rs`)

The registry (`DashMap<String, TaskInfo>`) is modelled as an
association list keyed by task id; ids are abstracted to `Nat` (the
source generates `"{display_name}-{uuid8}"` strings, which the state
machine never inspects).  `Instant` timestamps are abstract `Nat`
values carried by each transition.  The `f64` speed field of
`TaskProgress` is omitted: no claim reads it, and the
throughput-aggregator loop touches only `current_speed` and
`downloaded_bytes`, never status or item counts. -/

/-- `task.rs: TaskStatus`. -/
inductive TaskStatus where
  | pending
  | running
  | paused
  | completed
  | failed (reason : Str)
deriving DecidableEq, Repr

/-- `task.rs: TaskProgress` (without the `f64` speed field). -/
structure TaskProgress where
  total : Nat
  completed : Nat
  totalBytes : Nat
  downloadedBytes : Nat
deriving DecidableEq, Repr

/-- `TaskProgress::new`. -/
def TaskProgress.new : TaskProgress := ⟨0, 0, 0, 0⟩

/-- `task.rs: TaskInfo` (task type omitted: never read by the state
machine). -/
structure TaskInfo where
  name : Str
  status : TaskStatus
  progress : TaskProgress
  createdAt : Nat
  startedAt : Option Nat
  finishedAt : Option Nat
deriving DecidableEq, Repr

/-- `TaskInfo::new`. -/
def TaskInfo.new (name : Str) (now : Nat) : TaskInfo :=
  ⟨name, .pending, TaskProgress.new, now, none, none⟩

/-- The task registry. -/
abbrev TmState := List (Nat × TaskInfo)

/-- `DashMap::get`. -/
def lookupTask (s : TmState) (id : Nat) : Option TaskInfo :=
  (s.find? (fun e => e.1 == id)).map (fun e => e.2)

/-- `DashMap::insert` (replacing any previous entry). -/
def insertTask (s : TmState) (id : Nat) (info : TaskInfo) : TmState :=
  (id, info) :: s.filter (fun e => e.1 != id)

/-- `DashMap::get_mut` followed by an in-place mutation. -/
def updateTask (s : TmState) (id : Nat) (f : TaskInfo → TaskInfo) : TmState :=
  s.map (fun e => if e.1 = id then (e.1, f e.2) else e)

/-- `status == Completed || matches!(status, Failed(_))`. -/
def isTerminal : TaskStatus → Bool
  | .completed => true
  | .failed _ => true
  | _ => false

/-- One observable transition of the task manager:
`append` is `append_task`; `startRun` is the synchronous part of
`start_task` (Pending check, Running + started_at); `finishOk` /
`finishErr` are the background worker's final update after
`task.execute` returns; `setProgress` is `update_progress`, whose body
is identical to one progress-reducer iteration.  The background steps
are allowed at any time, over-approximating the real interleavings. -/
inductive TmStep where
  | append (id : Nat) (name : Str) (now : Nat)
  | startRun (id : Nat) (now : Nat)
  | finishOk (id : Nat) (now : Nat)
  | finishErr (id : Nat) (reason : Str) (now : Nat)
  | setProgress (id : Nat) (p : TaskProgress) (st : TaskStatus) (now : Nat)
deriving DecidableEq, Repr

/-- The transition function of the task manager, from `task.rs`. -/
def tmStep (s : TmState) : TmStep → TmState
  | .append id name now => insertTask s id (TaskInfo.new name now)
  | .startRun id now =>
    match lookupTask s id with
    | some info =>
      if info.status = .pending then
        updateTask s id (fun t => { t with status := .running, startedAt := some now })
      else s
    | none => s
  | .finishOk id now =>
    updateTask s id (fun t =>
      { t with status := .completed,
               progress := { t.progress with completed := t.progress.total },
               finishedAt := some now })
  | .finishErr id reason now =>
    updateTask s id (fun t =>
      { t with status := .failed reason, finishedAt := some now })
  | .setProgress id p st now =>
    updateTask s id (fun t =>
      { t with progress := p, status := st,
               finishedAt := if isTerminal st then some now else t.finishedAt })

/-- A run of the task manager from the empty registry. -/
def tmRun (steps : List TmStep) : TmState :=
  steps.foldl tmStep []

/-- A progress update that sets status Completed and carries
`completed_items = total_items` (every in-repo caller sends such
updates); any other step is unconstrained. -/
def goodStep : TmStep → Bool
  | .setProgress _ p st _ =>
    match st with
    | .completed => p.completed == p.total
    | _ => true
  | _ => true

/-- A per-entry invariant of the registry. -/
def EntryInv (P : TaskInfo → Prop) (s : TmState) : Prop :=
  ∀ e ∈ s, P e.2

theorem entryInv_insert (P : TaskInfo → Prop) (s : TmState) (id : Nat)
    (info : TaskInfo) (hs : EntryInv P s) (hi : P info) :
    EntryInv P (insertTask s id info) := by
  intro e he
  rcases List.mem_cons.mp he with he1 | he2
  · rw [he1]; exact hi
  · exact hs e (List.mem_of_mem_filter he2)

theorem entryInv_update (P : TaskInfo → Prop) (s : TmState) (id : Nat)
    (f : TaskInfo → TaskInfo) (hs : EntryInv P s) (hf : ∀ info, P (f info)) :
    EntryInv P (updateTask s id f) := by
  intro e he
  rcases List.mem_map.mp he with ⟨e', he', heq⟩
  by_cases hid : e'.1 = id
  · rw [← heq, if_pos hid]; exact hf e'.2
  · rw [← heq, if_neg hid]; exact hs e' he'

/-- Every transition keeps "Completed implies finished_at set". -/
theorem finInv_step (s : TmState) (st : TmStep)
    (hs : EntryInv (fun info => info.status = .completed → info.finishedAt.isSome) s) :
    EntryInv (fun info => info.status = .completed → info.finishedAt.isSome)
      (tmStep s st) := by
  cases st with
  | append id name now =>
    exact entryInv_insert _ s id _ hs (by intro h; simp [TaskInfo.new] at h)
  | startRun id now =>
    simp only [tmStep]
    split
    · split
      · exact entryInv_update _ s id _ hs (fun t => by intro h; simp at h)
      · exact hs
    · exact hs
  | finishOk id now =>
    simp only [tmStep]
    exact entryInv_update _ s id _ hs (fun t => by intro _; simp)
  | finishErr id reason now =>
    simp only [tmStep]
    exact entryInv_update _ s id _ hs (fun t => by intro h; simp at h)
  | setProgress id p st' now =>
    simp only [tmStep]
    refine entryInv_update _ s id _ hs (fun t => ?_)
    intro h
    have h' : st' = .completed := h
    subst h'
    simp [isTerminal]

/-- Under good progress updates, every transition keeps "Completed
implies completed_items = total_items". -/
theorem fullInv_step (s : TmState) (st : TmStep) (hg : goodStep st = true)
    (hs : EntryInv
      (fun info => info.status = .completed →
        info.progress.completed = info.progress.total) s) :
    EntryInv
      (fun info => info.status = .completed →
        info.progress.completed = info.progress.total)
      (tmStep s st) := by
  cases st with
  | append id name now =>
    exact entryInv_insert _ s id _ hs (by intro _; rfl)
  | startRun id now =>
    simp only [tmStep]
    split
    · split
      · exact entryInv_update _ s id _ hs (fun t => by intro h; simp at h)
      · exact hs
    · exact hs
  | finishOk id now =>
    simp only [tmStep]
    exact entryInv_update _ s id _ hs (fun t => by intro _; rfl)
  | finishErr id reason now =>
    simp only [tmStep]
    exact entryInv_update _ s id _ hs (fun t => by intro h; simp at h)
  | setProgress id p st' now =>
    simp only [tmStep]
    refine entryInv_update _ s id _ hs (fun t => ?_)
    intro h
    have h' : st' = .completed := h
    subst h'
    simp only [goodStep] at hg
    simpa using hg

theorem finInv_run (steps : List TmStep) :
    ∀ s : TmState,
      EntryInv (fun info => info.status = .completed → info.finishedAt.isSome) s →
      EntryInv (fun info => info.status = .completed → info.finishedAt.isSome)
        (steps.foldl tmStep s) := by
  induction steps with
  | nil => intro s hs; exact hs
  | cons st rest ih =>
    intro s hs
    exact ih _ (finInv_step s st hs)

theorem fullInv_run (steps : List TmStep) (hg : ∀ st ∈ steps, goodStep st = true) :
    ∀ s : TmState,
      EntryInv (fun info => info.status = .completed →
        info.progress.completed = info.progress.total) s →
      EntryInv (fun info => info.status = .completed →
        info.progress.completed = info.progress.total)
        (steps.foldl tmStep s) := by
  induction steps with
  | nil => intro s hs; exact hs
  | cons st rest ih =>
    intro s hs
    exact ih (fun x hx => hg x (List.mem_cons_of_mem _ hx)) _
      (fullInv_step s st (hg st (List.mem_cons_self _ _)) hs)

/-- A successful lookup returns the info of some registry entry. -/
theorem lookupTask_mem (s : TmState) (id : Nat) (info : TaskInfo)
    (h : lookupTask s id = some info) : ∃ e ∈ s, e.2 = info := by
  unfold lookupTask at h
  rcases Option.map_eq_some'.mp h with ⟨e, hfind, heq⟩
  exact ⟨e, List.mem_of_find?_eq_some hfind, heq⟩

/-- C8 (counterexample): `update_progress` copies its status and
progress arguments verbatim, so after `append` and an update that sets
status Completed with `completed_items = 1`, `total_items = 2`, the
registry holds a Completed task whose item counts differ — refuting
the claim for arbitrary `update_progress` arguments. -/
theorem c8_counterexample :
    ((lookupTask (tmRun [.append 0 (("t").toList) 0,
        .setProgress 0 ⟨2, 1, 0, 0⟩ .completed 1]) 0).any
      (fun info => info.status == .completed
        && info.progress.completed != info.progress.total)) = true := by
  decide

/-- C8 (amended): in every state reachable by append_task, start_task
(with its background completion step), update_progress and
progress-reducer steps, every task whose status is Completed has
finished_at set; if moreover every progress update that sets status
Completed carries completed_items = total_items (as every in-repo
caller does), then every Completed task also has completed_items equal
to total_items.  The unrestricted claim fails because update_progress
installs arbitrary progress values verbatim. -/
theorem c8_completed_invariant (steps : List TmStep) :
    (∀ id info, lookupTask (tmRun steps) id = some info →
        info.status = .completed → info.finishedAt.isSome)
    ∧ ((∀ st ∈ steps, goodStep st = true) →
        ∀ id info, lookupTask (tmRun steps) id = some info →
          info.status = .completed →
          info.progress.completed = info.progress.total) := by
  constructor
  · intro id info hl hc
    have hinv := finInv_run steps [] (by intro e he; cases he)
    rcases lookupTask_mem _ id info hl with ⟨e, he, heq⟩
    have := hinv e he
    rw [heq] at this
    exact this hc
  · intro hg id info hl hc
    have hinv := fullInv_run steps hg [] (by intro e he; cases he)
    rcases lookupTask_mem _ id info hl with ⟨e, he, heq⟩
    have := hinv e he
    rw [heq] at this
    exact this hc

/-- Witness for C8: after `append`, `start_task` and the background
success step, the task is Completed with `completed_items =
total_items` and `finished_at` set. -/
theorem c8_completed_invariant_witness :
    ((⟨("t").toList, .completed, ⟨0, 0, 0, 0⟩, 0, some 1, some 2⟩ : TaskInfo).progress.completed
      = (⟨("t").toList, .completed, ⟨0, 0, 0, 0⟩, 0, some 1, some 2⟩ : TaskInfo).progress.total)
    ∧ ((⟨("t").toList, .completed, ⟨0, 0, 0, 0⟩, 0, some 1, some 2⟩ : TaskInfo).finishedAt.isSome) :=
  ⟨(c8_completed_invariant
      [.append 0 (("t").toList) 0, .startRun 0 1, .finishOk 0 2]).2
    (by decide) 0 _ rfl rfl,
  (c8_completed_invariant
      [.append 0 (("t").toList) 0, .startRun 0 1, .finishOk 0 2]).1 0 _ rfl rfl⟩

end RTLauncher
